import Mathlib

/-!
# Verification of the bookmark URL-checker and content-downloader core

This file embeds the probe engine (`src/url-checker.py`), the fetch engine
(`src/content-downloader.py`) and the per-domain scheduler shared by both
into Lean, and proves the spec's claims about them.

Modelling conventions:
* Python strings are Lean `String`s; the Python `str` operations the source
  uses (`startswith`, `endswith`, `split`, `join`, `strip`, `replace`,
  slicing, `in`) are modelled by structurally recursive functions on
  `String.data`, matching Python's code-point semantics.
* The network, the TLS handshake, the system clock and `hashlib.md5` are
  external effects; they are supplied as explicit environment values
  (`ProbeEnv`, `FetchEnv`).  An HTTP request either returns a response
  (status plus optional `Location` header) or raises, which is modelled
  with `Except`.
* `asyncio.as_completed` yields task results in a nondeterministic order;
  the phase assembly functions therefore take the completed-result list as
  an argument, and theorems quantify over it (constrained, where needed, to
  be a permutation of the per-task results).
* `float` delays computed by `i * delay / 2` are modelled in `ℚ`.
-/

namespace BookmarkAnalysis

/-! ## Python string primitives -/

/-- Model of Python `s.startswith(pat)` restricted to the pattern's
characters: `pat` is an initial run of `l`. -/
def startsWithList (pat : List Char) : List Char → Bool
  | [] => pat.isEmpty
  | c :: cs =>
    match pat with
    | [] => true
    | p :: ps => p == c && startsWithList ps cs

/-- Model of Python `s.startswith(pat)`. -/
def pyStartsWith (s pat : String) : Bool :=
  startsWithList pat.data s.data

/-- Model of Python `s.endswith(c)` for a single character `c`. -/
def pyEndsWith (s : String) (c : Char) : Bool :=
  s.data.getLast? == some c

/-- Model of Python truthiness of a string: empty strings are falsy. -/
def pyIsEmpty (s : String) : Bool :=
  s.data.isEmpty

/-- Model of Python `s.split(c)` at the character-list level: split at every
occurrence of `c`, producing one (possibly empty) part more than there are
separators. -/
def splitChar (c : Char) : List Char → List (List Char)
  | [] => [[]]
  | x :: xs =>
    match splitChar c xs with
    | [] => [[]]
    | p :: ps => if x == c then [] :: p :: ps else (x :: p) :: ps

/-- Model of Python `c.join(parts)` at the character-list level. -/
def joinChar (c : Char) : List (List Char) → List Char
  | [] => []
  | [p] => p
  | p :: ps => p ++ c :: joinChar c ps

/-- Model of Python `s.split(c)`. -/
def pySplit (c : Char) (s : String) : List String :=
  (splitChar c s.data).map (fun l => ⟨l⟩)

/-- Model of Python `sep.join(parts)` for a one-character separator. -/
def pyJoin (c : Char) (parts : List String) : String :=
  ⟨joinChar c (parts.map String.data)⟩

/-- Model of Python `s.strip(c)`: drop every leading and trailing `c`. -/
def stripChar (c : Char) (s : String) : String :=
  ⟨((s.data.dropWhile (· == c)).reverse.dropWhile (· == c)).reverse⟩

/-- Model of Python `s.replace(a, b)` for one-character `a`, `b`. -/
def replaceChar (a b : Char) (s : String) : String :=
  ⟨s.data.map (fun ch => if ch == a then b else ch)⟩

/-- Model of Python `pat in s` (substring containment). -/
def containsSub (pat : List Char) : List Char → Bool
  | [] => pat.isEmpty
  | c :: cs => startsWithList pat (c :: cs) || containsSub pat cs

/-- Model of Python `pat in s` on `String`s. -/
def pyContains (s pat : String) : Bool :=
  containsSub pat.data s.data

/-- Model of Python `s[:n]` (take the first `n` code points). -/
def pyTake (n : Nat) (s : String) : String :=
  ⟨s.data.take n⟩

/-- Split `l` at the first occurrence of the pattern `pat`, returning the
part before it and the part after it. -/
def breakAt (pat : List Char) : List Char → Option (List Char × List Char)
  | [] => if pat.isEmpty then some ([], []) else none
  | c :: cs =>
    if startsWithList pat (c :: cs) then some ([], (c :: cs).drop pat.length)
    else
      match breakAt pat cs with
      | some (pre, post) => some (c :: pre, post)
      | none => none

/-! ## URL parsing

The source calls `urllib.parse.urlparse` and uses only the `scheme`,
`netloc` and `path` components.  The model below covers URLs without query,
fragment or params components (none of the claims involve them): the scheme
is everything before the first `"://"`, the netloc runs up to the next `/`,
and the path is the rest.  A string without `"://"` parses — as in Python —
with empty scheme and netloc and the whole string as path. -/

structure ParsedUrl where
  scheme : String
  netloc : String
  path : String
  deriving DecidableEq, Repr

/-- Model of `urllib.parse.urlparse` restricted to scheme/netloc/path. -/
def urlparse (url : String) : ParsedUrl :=
  match breakAt "://".data url.data with
  | none => ⟨"", "", url⟩
  | some (schemeCs, rest) =>
    ⟨⟨schemeCs⟩, ⟨rest.takeWhile (· != '/')⟩, ⟨rest.dropWhile (· != '/')⟩⟩

/-! ## Data model (§3 of the spec, `bookmark['status']` / `bookmark['content']`) -/

/-- The `status` dict built at `url-checker.py:118-126`.  All seven fields
are always assigned, so the struct has no optional fields beyond those the
code itself can leave as `None`. -/
structure Status where
  code : Int
  accessible : Bool
  redirect : Bool
  redirect_url : Option String
  response_time : ℚ
  ssl_valid : Option Bool
  last_checked : String
  deriving DecidableEq, Repr

/-- The `content` dict built by `content-downloader.py`.  Python builds
dicts with different key sets per branch; a key that a branch omits is
modelled as `none`. -/
structure Content where
  downloaded : Bool
  path : Option String
  size : Option Nat
  mime_type : Option String
  download_date : Option String
  error : Option String
  url_used : Option String
  deriving DecidableEq, Repr

/-- A bookmark record.  `content = none` before the fetch phase runs. -/
structure Bookmark where
  id : Nat
  url : String
  domain : String
  status : Status
  content : Option Content
  deriving DecidableEq, Repr

/-! ## Probe engine (`url-checker.py`, `check_url`) -/

/-- The exception taxonomy distinguished by the `except` chain at
`url-checker.py:100-113`: `aiohttp.ClientConnectorError`,
`aiohttp.ClientResponseError` (carrying an HTTP status), any other
`aiohttp.ClientError`, `asyncio.TimeoutError`, and any other exception. -/
inductive ProbeExc where
  | connectorError
  | responseError (status : Int)
  | clientOther
  | timeout
  | other
  deriving DecidableEq, Repr

/-- An HTTP response as the probe observes it: the status code and the
optional `Location` header. -/
structure HttpResp where
  status : Int
  location : Option String
  deriving DecidableEq, Repr

/-- External effects consumed by one `check_url` call: the outcome of the
HEAD request, the outcome of the (conditional) fallback GET request, whether
the (conditional) raw TLS handshake against `netloc:443` with the `certifi`
root bundle completes without error, the elapsed wall time, and
`datetime.now().isoformat()`. -/
structure ProbeEnv where
  headResult : Except ProbeExc HttpResp
  getResult : Except ProbeExc HttpResp
  sslOk : Bool
  elapsed : ℚ
  now : String

/-- The status-code classification performed by the `except` chain at
`url-checker.py:100-113`. -/
def classifyProbeExc : ProbeExc → Int
  | .connectorError => 0
  | .responseError s => s
  | .clientOther => -1
  | .timeout => 408
  | .other => -2

/-- Relative-redirect resolution, `url-checker.py:55-66` (reached only for
a non-absolute target): an absolute-path target replaces the whole path on
`scheme://netloc`; otherwise the target is appended to the path, which — if
it does not already end in `/` — first has its last `/`-segment removed. -/
def resolveLoc (url target : String) : String :=
  let p := urlparse url
  let base_url := p.scheme ++ "://" ++ p.netloc
  if pyStartsWith target "/" then
    base_url ++ target
  else if pyEndsWith p.path '/' then
    base_url ++ p.path ++ target
  else
    base_url ++ (pyJoin '/' ((pySplit '/' p.path).dropLast) ++ "/") ++ target

/-- Handling of the `Location` header on a 3xx HEAD response,
`url-checker.py:51-66`: `headers.get('Location', None)` followed by
`if redirect_url and not redirect_url.startswith(('http://', 'https://'))`.
An absent header stays `None`; an empty or absolute target is kept as is;
a non-empty relative target is resolved with `resolveLoc`. -/
def applyLocation (url : String) (loc : Option String) : Option String :=
  match loc with
  | none => none
  | some u =>
    if pyIsEmpty u then some u
    else if pyStartsWith u "http://" || pyStartsWith u "https://" then some u
    else some (resolveLoc url u)

/-- The single `bookmark['status']` dict literal at `url-checker.py:118-126`.
`status_code` is an `Int` on every path of the model, so Python's
`(status_code or 0)` guard is the identity there (`0 or 0` is `0`). -/
def mkStatus (code : Int) (redirect_url : Option String) (ssl_valid : Option Bool)
    (env : ProbeEnv) : Status :=
  { code := code
    accessible := decide (200 ≤ code ∧ code < 400)
    redirect := decide (300 ≤ code ∧ code < 400)
    redirect_url := redirect_url
    response_time := env.elapsed
    ssl_valid := ssl_valid
    last_checked := env.now }

/-- The body of `check_url` (`url-checker.py:44-126`) for one URL, returning
the resulting status and whether the fallback GET of line 71 was issued.
If the HEAD request raises, control jumps to the `except` chain: the code is
classified, and `redirect_url`/`ssl_valid` keep their initial `None`.
If the HEAD returns: a 3xx response has its `Location` header read and
resolved; a `>= 400` response triggers one redirect-following GET whose
result replaces the original when it succeeds (a GET failure is swallowed at
lines 75-77); finally, for `https` URLs only, the raw TLS handshake outcome
is recorded. -/
def probeRun (url : String) (env : ProbeEnv) : Status × Bool :=
  match env.headResult with
  | .error e => (mkStatus (classifyProbeExc e) none none env, false)
  | .ok r =>
    let redirect0 : Option String :=
      if 300 ≤ r.status ∧ r.status < 400 then applyLocation url r.location else none
    let fallback : Int × Option String × Bool :=
      if 400 ≤ r.status then
        match env.getResult with
        | .ok g =>
          (g.status, if 300 ≤ g.status ∧ g.status < 400 then g.location else redirect0, true)
        | .error _ => (r.status, redirect0, true)
      else (r.status, redirect0, false)
    let sslv : Option Bool :=
      if pyStartsWith url "https://" then some env.sslOk else none
    (mkStatus fallback.1 fallback.2.1 sslv env, fallback.2.2)

/-- The status produced by one `check_url` call. -/
def probeStatus (url : String) (env : ProbeEnv) : Status :=
  (probeRun url env).1

/-- `check_url` (`url-checker.py:24-128`): update the bookmark's status. -/
def check_url (bm : Bookmark) (env : ProbeEnv) : Bookmark :=
  { bm with status := probeStatus bm.url env }

/-! ## Domain scheduler (`check_urls_async` lines 152-170,
`download_content_async` lines 185-207) -/

/-- One step of the grouping loop: append the bookmark to its domain's list
in the insertion-ordered dict, or add a fresh key.  Models
`domains[domain].append(bookmark)` on a Python `dict`. -/
def addToGroups (groups : List (String × List Bookmark)) (b : Bookmark) :
    List (String × List Bookmark) :=
  match groups with
  | [] => [(b.domain, [b])]
  | (d, l) :: rest =>
    if d == b.domain then (d, l ++ [b]) :: rest else (d, l) :: addToGroups rest b

/-- The grouping loop (`url-checker.py:153-158`): an insertion-ordered map
from domain to that domain's bookmarks, in input order. -/
def groupByDomains (bms : List Bookmark) : List (String × List Bookmark) :=
  bms.foldl addToGroups []

/-- The task-creation loop common to both phases: for every domain group,
its `i`-th bookmark gets start delay `dfun i`. -/
def mkDomainTasks (groups : List (String × List Bookmark)) (dfun : Nat → ℚ) :
    List (Bookmark × ℚ) :=
  groups.flatMap (fun dl => dl.2.enum.map (fun ib => (ib.2, dfun ib.1)))

/-- Probe-phase tasks (`url-checker.py:161-170`): every bookmark is grouped,
and the `i`-th bookmark of a domain is delayed by `i * delay / 2`. -/
def probeTasks (bms : List Bookmark) (delay : ℚ) : List (Bookmark × ℚ) :=
  mkDomainTasks (groupByDomains bms) (fun i => (i : ℚ) * delay / 2)

/-- Fetch-phase tasks (`content-downloader.py:186-207`): only bookmarks with
`status.accessible` are grouped (line 189-190 `continue`s past the rest),
and the `i`-th bookmark of a domain is delayed by `i * delay`. -/
def fetchTasks (bms : List Bookmark) (delay : ℚ) : List (Bookmark × ℚ) :=
  mkDomainTasks (groupByDomains (bms.filter (fun b => b.status.accessible)))
    (fun i => (i : ℚ) * delay)

/-! ## Phase assembly -/

/-- `updated_bookmarks.sort(key=lambda b: b['id'])`: a stable ascending sort
by `id`.  Python's `list.sort` is stable; any stable sort computes the same
list, so it is modelled by insertion sort. -/
def sortById (l : List Bookmark) : List Bookmark :=
  l.insertionSort (fun a b => a.id ≤ b.id)

/-- The same sort for instrumented results that carry a network-call count. -/
def sortPairsById (l : List (Bookmark × Nat)) : List (Bookmark × Nat) :=
  l.insertionSort (fun a b => a.1.id ≤ b.1.id)

/-- The per-task results of the probe phase in task order; `as_completed`
delivers a permutation of this list. -/
def probeResults (bms : List Bookmark) (envf : Bookmark → ProbeEnv) (delay : ℚ) :
    List Bookmark :=
  (probeTasks bms delay).map (fun t => check_url t.1 (envf t.1))

/-- The result-assembly tail of `check_urls_async` (`url-checker.py:172-181`):
collect the completed tasks (in whatever order they finish) and sort by id. -/
def check_urls_async (completed : List Bookmark) : List Bookmark :=
  sortById completed

/-! ## Fetch engine (`content-downloader.py`) -/

/-- The exception taxonomy of the `except` chain at
`content-downloader.py:118-141`: `aiohttp.ClientError`,
`asyncio.TimeoutError`, anything else.  The message strings carried by the
first and last bucket are the `str(e)` interpolations. -/
inductive FetchExc where
  | clientError (msg : String)
  | timeout
  | other (msg : String)
  deriving DecidableEq, Repr

/-- A fetch response: HTTP status, the optional `Content-Type` header, and
the length of the body bytes returned by `response.read()`. -/
structure FetchResp where
  status : Int
  contentType : Option String
  bodyLen : Nat
  deriving DecidableEq, Repr

/-- External effects consumed by one `download_page_content` call: the GET
outcome, `hashlib.md5(·.encode()).hexdigest()` as an oracle on strings,
`datetime.now().strftime("%Y%m%d")` and `datetime.now().isoformat()`. -/
structure FetchEnv where
  getResult : Except FetchExc FetchResp
  md5hex : String → String
  today : String
  now_iso : String

/-- Model of `os.path.join(a, b)` for POSIX paths: an absolute `b` wins;
otherwise a separator is inserted unless `a` is empty or already ends in
`/`. -/
def pathJoin (a b : String) : String :=
  if pyStartsWith b "/" then b
  else if pyIsEmpty a || pyEndsWith a '/' then a ++ b
  else a ++ "/" ++ b

/-- Target resolution at `content-downloader.py:41-45`: use the redirect
target when `status.redirect` and `status.redirect_url` are both truthy
(in particular a `None` or empty `redirect_url` falls back to `url`). -/
def fetchTargetUrl (bm : Bookmark) : String :=
  match bm.status.redirect, bm.status.redirect_url with
  | true, some u => if pyIsEmpty u then bm.url else u
  | _, _ => bm.url

/-- Filename-stem sanitisation at `content-downloader.py:68-76`:
`parsed_url.path.strip('/')`, defaulting to `"index"` when empty, else `/`
replaced by `_` and the result truncated to 100 characters. -/
def sanitizePath (path : String) : String :=
  let p := stripChar '/' path
  if pyIsEmpty p then "index" else pyTake 100 (replaceChar '/' '_' p)

/-- Domain sanitisation at `content-downloader.py:67`: `netloc.replace(':', '_')`. -/
def sanitizeDomain (netloc : String) : String :=
  replaceChar ':' '_' netloc

/-- Extension selection at `content-downloader.py:87-93`. -/
def extensionFor (content_type : String) : String :=
  if pyContains content_type "json" then ".json"
  else if pyContains content_type "xml" then ".xml"
  else if pyContains content_type "text/plain" then ".txt"
  else ".html"

/-- The `content` dict written for inaccessible bookmarks at
`content-downloader.py:219-223` — exactly three keys. -/
def mkInaccessibleContent (now_iso : String) : Content :=
  { downloaded := false
    path := none
    size := none
    mime_type := none
    download_date := some now_iso
    error := some "inaccessible_url"
    url_used := none }

/-- `download_page_content` (`content-downloader.py:24-143`), returning the
updated bookmark and the number of network requests issued for it.  An
inaccessible bookmark returns unchanged with zero requests (lines 36-39);
otherwise exactly one GET is attempted against `fetchTargetUrl`.  A non-200
response, a transport error, a timeout or any other failure produce the
corresponding error `content`; a 200 response stores the body under
`<output_dir>/data/content/<domain>/<stem>_<md5[:10]>_<YYYYMMDD><ext>`. -/
def download_page_content (bm : Bookmark) (output_dir : String) (env : FetchEnv) :
    Bookmark × Nat :=
  if bm.status.accessible = false then (bm, 0)
  else
    let url := fetchTargetUrl bm
    let errContent : String → Option Content := fun err =>
      some { downloaded := false, path := none, size := none, mime_type := none,
             download_date := some env.now_iso, error := some err, url_used := some url }
    match env.getResult with
    | .error (.clientError msg) =>
      ({ bm with content := errContent ("client_error: " ++ msg) }, 1)
    | .error .timeout =>
      ({ bm with content := errContent "timeout" }, 1)
    | .error (.other msg) =>
      ({ bm with content := errContent ("unexpected_error: " ++ msg) }, 1)
    | .ok resp =>
      if resp.status ≠ 200 then
        ({ bm with content := errContent ("status_code: " ++ toString resp.status) }, 1)
      else
        let content_type := resp.contentType.getD "text/html"
        let parsed := urlparse url
        let domain := sanitizeDomain parsed.netloc
        let path := sanitizePath parsed.path
        let url_hash := pyTake 10 (env.md5hex url)
        let content_dir := pathJoin (pathJoin output_dir "data/content") domain
        let extension := extensionFor content_type
        let filename := path ++ "_" ++ url_hash ++ "_" ++ env.today ++ extension
        let file_path := pathJoin content_dir filename
        let c : Content :=
          { downloaded := true, path := some file_path, size := some resp.bodyLen,
            mime_type := some content_type, download_date := some env.now_iso,
            error := none, url_used := some url }
        ({ bm with content := some c }, 1)

/-- The per-task results of the fetch phase in task order; `as_completed`
delivers a permutation of this list. -/
def fetchResults (bms : List Bookmark) (envf : Bookmark → FetchEnv)
    (output_dir : String) (delay : ℚ) : List (Bookmark × Nat) :=
  (fetchTasks bms delay).map (fun t => download_page_content t.1 output_dir (envf t.1))

/-- The result-assembly tail of `download_content_async`
(`content-downloader.py:209-231`): collect the completed download tasks (in
whatever order they finish), append every inaccessible bookmark with the
`inaccessible_url` content and zero network calls (lines 216-226), and sort
by id. -/
def download_content_async (completed : List (Bookmark × Nat)) (bms : List Bookmark)
    (envf : Bookmark → FetchEnv) : List (Bookmark × Nat) :=
  sortPairsById (completed ++
    (bms.filter (fun b => !b.status.accessible)).map
      (fun b => ({ b with content := some (mkInaccessibleContent (envf b).now_iso) }, 0)))

/-! ## Spec-side definition for the redirect-resolution refinement claim -/

/-- Modelled from the spec's resolution rule (§4.2 step 2, and the claim's
own wording): a target starting with `/` replaces the whole path on
`scheme://netloc`; any other relative target is appended to the current path
with its last `/`-delimited segment removed (the separator after the removed
segment's place is kept, as the spec's own example
`"https://a.b/x/y" + "z" = "https://a.b/x/z"` requires). -/
def specResolve (url target : String) : String :=
  let p := urlparse url
  let base_url := p.scheme ++ "://" ++ p.netloc
  if pyStartsWith target "/" then
    base_url ++ target
  else
    base_url ++ (pyJoin '/' ((pySplit '/' p.path).dropLast) ++ "/") ++ target

/-! ## Example records (used by witnesses and counterexamples) -/

/-- An example status of an accessible bookmark. -/
def stAcc : Status :=
  ⟨200, true, false, none, 0, none, "t"⟩

/-- An example status of an inaccessible bookmark. -/
def stInacc : Status :=
  ⟨404, false, false, none, 0, none, "t"⟩

/-- An inaccessible example bookmark on `x.com`. -/
def bmX : Bookmark :=
  ⟨1, "http://x.com/a", "x.com", stInacc, none⟩

/-- An accessible example bookmark on `x.com`. -/
def bmY : Bookmark :=
  ⟨2, "http://x.com/b", "x.com", stAcc, none⟩

/-- An accessible example bookmark with path `/x/y`. -/
def bmXY : Bookmark :=
  ⟨3, "https://a.b/x/y", "a.b", stAcc, none⟩

/-- An accessible example bookmark whose path contains a `.`. -/
def bmDot : Bookmark :=
  ⟨4, "https://a.b/x.y", "a.b", stAcc, none⟩

/-- A fetch environment answering 200 with a JSON content type. -/
def fenvJson : FetchEnv :=
  ⟨.ok ⟨200, some "application/json; charset=utf-8", 5⟩, fun _ => "0123456789abcdef", "20260101", "now"⟩

/-- A fetch environment answering 200 with an unrecognised content type. -/
def fenvWeird : FetchEnv :=
  ⟨.ok ⟨200, some "application/weird", 5⟩, fun _ => "0123456789abcdef", "20260101", "now"⟩

/-- A fetch environment answering 200 with content type `text/html`. -/
def fenvHtml : FetchEnv :=
  ⟨.ok ⟨200, some "text/html", 3⟩, fun _ => "0123456789abcdef", "20260101", "now"⟩

/-! ## Helper lemmas on the string primitives -/

theorem splitChar_ne_nil (c : Char) (l : List Char) : splitChar c l ≠ [] := by
  induction l with
  | nil => simp [splitChar]
  | cons x xs ih =>
    simp only [splitChar]
    cases h : splitChar c xs with
    | nil => exact absurd h ih
    | cons p ps => by_cases hx : (x == c) <;> simp [hx]

theorem joinChar_splitChar (c : Char) (l : List Char) : joinChar c (splitChar c l) = l := by
  induction l with
  | nil => rfl
  | cons x xs ih =>
    simp only [splitChar]
    cases h : splitChar c xs with
    | nil => exact absurd h (splitChar_ne_nil c xs)
    | cons p ps =>
      rw [h] at ih
      by_cases hx : (x == c)
      · have hxc : x = c := by simpa using hx
        simp [hx, joinChar, ih, hxc]
      · cases ps with
        | nil =>
          simp only [joinChar] at ih
          simp [hx, joinChar, ih]
        | cons q qs =>
          have hj : joinChar c ((x :: p) :: q :: qs) = (x :: p) ++ c :: joinChar c (q :: qs) := rfl
          have hj2 : joinChar c (p :: q :: qs) = p ++ c :: joinChar c (q :: qs) := rfl
          rw [hj2] at ih
          simp [hx, hj, List.cons_append, ih]

theorem splitChar_append_sep (c : Char) (l : List Char) :
    splitChar c (l ++ [c]) = splitChar c l ++ [[]] := by
  induction l with
  | nil => simp [splitChar]
  | cons x xs ih =>
    show splitChar c (x :: (xs ++ [c])) = _
    unfold splitChar
    rw [ih]
    cases h : splitChar c xs with
    | nil => exact absurd h (splitChar_ne_nil c xs)
    | cons p ps => by_cases hx : (x == c) <;> simp [hx]

/-- For a path ending in `/`, Python's
`'/'.join(path.split('/')[:-1]) + '/'` reconstructs the path itself:
the last `/`-delimited segment of such a path is empty. -/
theorem join_dropLast_split_of_endsWith {s : String} (h : pyEndsWith s '/' = true) :
    pyJoin '/' ((pySplit '/' s).dropLast) ++ "/" = s := by
  have h' : s.data.getLast? = some '/' := by
    unfold pyEndsWith at h
    simpa using h
  obtain ⟨l', hl⟩ := List.getLast?_eq_some_iff.mp h'
  apply String.ext
  rw [String.data_append]
  unfold pyJoin pySplit
  rw [hl, splitChar_append_sep]
  simp only [List.map_append, List.map_cons, List.map_nil, List.dropLast_concat,
    List.map_map]
  have hmapid : ((splitChar '/' l').map (String.data ∘ fun l => (⟨l⟩ : String))) =
      splitChar '/' l' := by
    have hfun : (String.data ∘ fun l : List Char => (⟨l⟩ : String)) = id := rfl
    rw [hfun, List.map_id]
  rw [hmapid, joinChar_splitChar]

/-- The source's relative-redirect resolution coincides with the spec's
uniform rule (last `/`-segment removed, target appended): when the path ends
in `/`, removing its (empty) last segment and re-adding `/` is the identity. -/
theorem resolveLoc_eq_specResolve (url target : String) :
    resolveLoc url target = specResolve url target := by
  unfold resolveLoc specResolve
  by_cases h1 : pyStartsWith target "/"
  · simp [h1]
  · simp only [h1, Bool.false_eq_true, if_false]
    by_cases h2 : pyEndsWith (urlparse url).path '/'
    · simp only [h2, if_true]
      rw [join_dropLast_split_of_endsWith h2]
    · simp [h2]

/-! ## Claim C1 -/

/-- Claim C1, counterexample to the claim's example: a probe whose final
code is `301` has `redirect = true` but `accessible = true` (the claim's
formula `accessible = 200 ≤ code < 400` holds at 301, contradicting the
claim's own "code=301 implies accessible=false"). -/
theorem accessible_true_at_301_counterexample :
    (probeStatus "http://a.b/" ⟨.ok ⟨301, none⟩, .ok ⟨200, none⟩, true, 0, "t"⟩).code = 301 ∧
    (probeStatus "http://a.b/" ⟨.ok ⟨301, none⟩, .ok ⟨200, none⟩, true, 0, "t"⟩).redirect = true ∧
    (probeStatus "http://a.b/" ⟨.ok ⟨301, none⟩, .ok ⟨200, none⟩, true, 0, "t"⟩).accessible = true := by
  decide

/-- Claim C1 (amended): after any probe — the HEAD succeeding or raising —
the resulting status satisfies `accessible = (200 ≤ code < 400)` and
`redirect = (300 ≤ code < 400)`; in particular `code = 301` gives
`redirect = true` and `accessible = true`.  The struct is fully populated by
construction (`Status` has no optional field the code can leave unset). -/
theorem probe_status_consistent (url : String) (env : ProbeEnv) :
    ((probeStatus url env).accessible = true ↔
      200 ≤ (probeStatus url env).code ∧ (probeStatus url env).code < 400) ∧
    ((probeStatus url env).redirect = true ↔
      300 ≤ (probeStatus url env).code ∧ (probeStatus url env).code < 400) := by
  cases h : env.headResult <;>
    simp [probeStatus, probeRun, mkStatus, h]

/-! ## Claim C2 -/

/-- Claim C2, counterexample: an `https` URL whose HEAD request raises
(here: a timeout) ends the probe with `ssl_valid = None` — the exception
jumps over the TLS-handshake block, so `ssl_valid` is *not* a boolean for
every `https` URL. -/
theorem ssl_valid_none_on_raised_probe :
    pyStartsWith "https://a.b/" "https://" = true ∧
    (probeStatus "https://a.b/" ⟨.error .timeout, .ok ⟨200, none⟩, true, 0, "t"⟩).ssl_valid
      = none := by
  decide

/-- Claim C2 (amended): when the HEAD request returns (without raising),
`ssl_valid` is `some (handshake outcome)` exactly for URLs starting with
`https://` and `none` otherwise; when the HEAD request raises, `ssl_valid`
is `none` regardless of the scheme. -/
theorem ssl_valid_population (url : String) (g : Except ProbeExc HttpResp)
    (s : Bool) (t : ℚ) (n : String) :
    (∀ r, (probeStatus url ⟨.ok r, g, s, t, n⟩).ssl_valid =
        if pyStartsWith url "https://" then some s else none) ∧
    (∀ e, (probeStatus url ⟨.error e, g, s, t, n⟩).ssl_valid = none) :=
  ⟨fun _ => rfl, fun _ => rfl⟩

/-! ## Claim C4 -/

/-- Claim C4: when the probe request raises, the `except` chain classifies
the failure exactly as: connection-level failure (`ClientConnectorError`) to
`0`, a status-carrying failure (`ClientResponseError`) to that status, a
request timeout to `408`, any other client-library error to `-1`, and any
other failure to `-2`.  `probeStatus` is a total function, so a failure is
always absorbed into a well-formed status and never escapes the batch. -/
theorem probe_error_taxonomy (url : String) (g : Except ProbeExc HttpResp)
    (s : Bool) (t : ℚ) (n : String) :
    (probeStatus url ⟨.error .connectorError, g, s, t, n⟩).code = 0 ∧
    (∀ c : Int, (probeStatus url ⟨.error (.responseError c), g, s, t, n⟩).code = c) ∧
    (probeStatus url ⟨.error .timeout, g, s, t, n⟩).code = 408 ∧
    (probeStatus url ⟨.error .clientOther, g, s, t, n⟩).code = -1 ∧
    (probeStatus url ⟨.error .other, g, s, t, n⟩).code = -2 :=
  ⟨rfl, fun _ => rfl, rfl, rfl, rfl⟩

/-! ## Claim C5 -/

/-- Claim C5, counterexample: a 3xx probe whose `Location` header is the
empty string — a non-absolute target (it starts with neither `http://` nor
`https://` nor `/`) — keeps `redirect_url = ""` unresolved (Python's
`if redirect_url and ...` treats the empty string as falsy), whereas the
claim's resolution rule would produce `"https://a.b/x/"`. -/
theorem redirect_empty_target_counterexample :
    (probeStatus "https://a.b/x/y"
        ⟨.ok ⟨301, some ""⟩, .ok ⟨200, none⟩, true, 0, "t"⟩).redirect_url = some "" ∧
    pyStartsWith "" "/" = false ∧
    pyStartsWith "" "http://" = false ∧
    pyStartsWith "" "https://" = false ∧
    specResolve "https://a.b/x/y" "" = "https://a.b/x/" ∧
    some "" ≠ some (specResolve "https://a.b/x/y" "") := by
  decide

/-- Claim C5 (amended): for every probe whose result code is in `[300,400)`
with a non-empty, non-absolute redirect target, `redirect_url` is the
target resolved by the spec's rule: an absolute-path target replaces the
whole path on the same scheme+host, and any other relative target is
appended to the current path with its last `/`-delimited segment removed. -/
theorem redirect_resolution (url : String) (env : ProbeEnv) (c : Int) (loc : String)
    (hh : env.headResult = .ok ⟨c, some loc⟩) (h3 : 300 ≤ c) (h4 : c < 400)
    (hne : pyIsEmpty loc = false)
    (habs1 : pyStartsWith loc "http://" = false)
    (habs2 : pyStartsWith loc "https://" = false) :
    (probeStatus url env).redirect_url = some (specResolve url loc) := by
  have hx : (probeStatus url env).redirect_url = applyLocation url (some loc) := by
    simp only [probeStatus, probeRun, hh, mkStatus]
    rw [if_neg (show ¬(400 : Int) ≤ c by omega)]
    show (if 300 ≤ c ∧ c < 400 then applyLocation url (some loc) else none) = _
    rw [if_pos (show (300 : Int) ≤ c ∧ c < 400 from ⟨h3, h4⟩)]
  rw [hx]
  simp only [applyLocation, hne, Bool.false_eq_true, if_false, habs1, habs2, Bool.or_self]
  rw [resolveLoc_eq_specResolve]

/-- Claim C5, witness: the two concrete resolutions from the claim,
obtained from `redirect_resolution` at its inputs. -/
theorem redirect_resolution_witness :
    (probeStatus "https://a.b/x/y"
        ⟨.ok ⟨301, some "z"⟩, .ok ⟨200, none⟩, true, 0, "t"⟩).redirect_url =
      some "https://a.b/x/z" ∧
    (probeStatus "https://a.b/x/y"
        ⟨.ok ⟨301, some "/q"⟩, .ok ⟨200, none⟩, true, 0, "t"⟩).redirect_url =
      some "https://a.b/q" :=
  ⟨(redirect_resolution "https://a.b/x/y" ⟨.ok ⟨301, some "z"⟩, .ok ⟨200, none⟩, true, 0, "t"⟩
      301 "z" rfl (by decide) (by decide) (by decide) (by decide) (by decide)).trans (by decide),
   (redirect_resolution "https://a.b/x/y" ⟨.ok ⟨301, some "/q"⟩, .ok ⟨200, none⟩, true, 0, "t"⟩
      301 "/q" rfl (by decide) (by decide) (by decide) (by decide) (by decide)).trans (by decide)⟩

/-! ## Claim C6 -/

/-- Claim C6: when the initial HEAD-equivalent probe returns a code `≥ 400`,
exactly one redirect-following GET is issued (`(probeRun url env).2 = true`);
if the GET returns, its status (and, for a 3xx GET result, its `Location`
header) replaces the original result and `accessible` is computed from it;
if the GET raises, the original result is kept. -/
theorem head_fallback_get (url : String) (r : HttpResp) (env : ProbeEnv)
    (hh : env.headResult = .ok r) (h4 : 400 ≤ r.status) :
    (∀ g, env.getResult = .ok g →
        (probeStatus url env).code = g.status ∧
        (probeStatus url env).redirect_url =
          (if 300 ≤ g.status ∧ g.status < 400 then g.location else none) ∧
        ((probeStatus url env).accessible = true ↔ 200 ≤ g.status ∧ g.status < 400)) ∧
    (∀ e, env.getResult = .error e →
        (probeStatus url env).code = r.status ∧ (probeStatus url env).redirect_url = none) ∧
    (probeRun url env).2 = true := by
  have hred : ¬(300 ≤ r.status ∧ r.status < 400) := by omega
  refine ⟨fun g hg => ?_, fun e he => ?_, ?_⟩
  · simp only [probeStatus, probeRun, hh, hg]
    rw [if_neg hred, if_pos h4]
    simp [mkStatus, decide_eq_true_iff]
  · simp only [probeStatus, probeRun, hh, he]
    rw [if_neg hred, if_pos h4]
    simp [mkStatus]
  · simp only [probeRun, hh]
    rw [if_pos h4]
    cases env.getResult <;> rfl

/-- Claim C6, witness: a HEAD that returns 404 followed by a fallback GET
that returns 200 ends with `status.code = 200` and `accessible = true`. -/
theorem head_fallback_get_witness :
    (probeStatus "http://a.b/" ⟨.ok ⟨404, none⟩, .ok ⟨200, none⟩, true, 0, "t"⟩).code = 200 ∧
    (probeStatus "http://a.b/" ⟨.ok ⟨404, none⟩, .ok ⟨200, none⟩, true, 0, "t"⟩).accessible
      = true :=
  have h := head_fallback_get "http://a.b/" ⟨404, none⟩
    ⟨.ok ⟨404, none⟩, .ok ⟨200, none⟩, true, 0, "t"⟩ rfl (by decide)
  ⟨(h.1 ⟨200, none⟩ rfl).1, (h.1 ⟨200, none⟩ rfl).2.2.mpr (by decide)⟩

/-! ## Claim C10 -/

/-- Claim C10: a probe whose final code is 3xx but whose response carries no
`Location` header ends with `redirect = true` and `redirect_url = none`
(so `redirect = true` does not imply a non-null `redirect_url`), the record
is still `accessible`, and the fetch phase then targets the original `url`:
`fetchTargetUrl` falls back to `bm.url`, and every branch of
`download_page_content` records `url_used = bm.url` instead of failing. -/
theorem redirect_without_location (url : String) (env : ProbeEnv) (c : Int)
    (hh : env.headResult = .ok ⟨c, none⟩) (h3 : 300 ≤ c) (h4 : c < 400) :
    (probeStatus url env).redirect = true ∧
    (probeStatus url env).redirect_url = none ∧
    (probeStatus url env).accessible = true ∧
    (∀ bm : Bookmark, bm.status = probeStatus url env → fetchTargetUrl bm = bm.url) ∧
    (∀ bm : Bookmark, bm.status = probeStatus url env → ∀ outdir fenv,
        (download_page_content bm outdir fenv).1.content.isSome = true ∧
        ∀ cc, (download_page_content bm outdir fenv).1.content = some cc →
          cc.url_used = some bm.url) := by
  have hstat : probeStatus url env =
      mkStatus c none (if pyStartsWith url "https://" then some env.sslOk else none) env := by
    simp only [probeStatus, probeRun, hh]
    rw [if_neg (show ¬(400 : Int) ≤ c by omega)]
    have hnone : (if 300 ≤ c ∧ c < 400 then applyLocation url none else none) = none := by
      split <;> rfl
    show mkStatus c (if 300 ≤ c ∧ c < 400 then applyLocation url none else none) _ env = _
    rw [hnone]
  have hred : (probeStatus url env).redirect = true := by
    rw [hstat]; simp [mkStatus]; omega
  have hru : (probeStatus url env).redirect_url = none := by rw [hstat]; rfl
  have hacc : (probeStatus url env).accessible = true := by
    rw [hstat]; simp [mkStatus]; omega
  have htgt : ∀ bm : Bookmark, bm.status = probeStatus url env → fetchTargetUrl bm = bm.url := by
    intro bm hbm
    unfold fetchTargetUrl
    rw [hbm, hred, hru]
  refine ⟨hred, hru, hacc, htgt, fun bm hbm outdir fenv => ?_⟩
  have hbacc : bm.status.accessible = true := by rw [hbm]; exact hacc
  unfold download_page_content
  rw [htgt bm hbm]
  simp only [hbacc, Bool.true_eq_false, if_false]
  cases hg : fenv.getResult with
  | error e =>
    cases e <;> simp
  | ok resp =>
    by_cases h200 : resp.status ≠ 200 <;> simp [h200]

/-- Claim C10, witness: a concrete 302 probe without a `Location` header. -/
theorem redirect_without_location_witness :
    (probeStatus "http://a.b/x" ⟨.ok ⟨302, none⟩, .ok ⟨200, none⟩, true, 0, "t"⟩).redirect
      = true ∧
    (probeStatus "http://a.b/x" ⟨.ok ⟨302, none⟩, .ok ⟨200, none⟩, true, 0, "t"⟩).redirect_url
      = none ∧
    fetchTargetUrl ⟨5, "http://a.b/x", "a.b",
      probeStatus "http://a.b/x" ⟨.ok ⟨302, none⟩, .ok ⟨200, none⟩, true, 0, "t"⟩, none⟩
      = "http://a.b/x" :=
  have h := redirect_without_location "http://a.b/x"
    ⟨.ok ⟨302, none⟩, .ok ⟨200, none⟩, true, 0, "t"⟩ 302 rfl (by decide) (by decide)
  ⟨h.1, h.2.1, h.2.2.2.1 ⟨5, "http://a.b/x", "a.b",
    probeStatus "http://a.b/x" ⟨.ok ⟨302, none⟩, .ok ⟨200, none⟩, true, 0, "t"⟩, none⟩ rfl⟩

/-! ## Helper lemmas on the domain scheduler -/

theorem addToGroups_fst (acc : List (String × List Bookmark)) (b : Bookmark) :
    (addToGroups acc b).map Prod.fst =
      if b.domain ∈ acc.map Prod.fst then acc.map Prod.fst
      else acc.map Prod.fst ++ [b.domain] := by
  induction acc with
  | nil => simp [addToGroups]
  | cons dl rest ih =>
    obtain ⟨d, l⟩ := dl
    simp only [addToGroups]
    by_cases hd : (d == b.domain)
    · have hdd : d = b.domain := by simpa using hd
      simp [hd, hdd]
    · have hdd : ¬d = b.domain := by simpa using hd
      have hdd2 : ¬b.domain = d := fun h => hdd h.symm
      by_cases hm : b.domain ∈ rest.map Prod.fst <;>
        simp [hd, hm, ih, hdd2]

theorem addToGroups_filter (seen : List Bookmark) (acc : List (String × List Bookmark))
    (b : Bookmark)
    (hchar : ∀ dl ∈ acc, dl.2 = seen.filter (fun x => x.domain == dl.1))
    (hnodup : (acc.map Prod.fst).Nodup)
    (hnew : b.domain ∈ acc.map Prod.fst ∨
      seen.filter (fun x => x.domain == b.domain) = []) :
    ∀ dl ∈ addToGroups acc b,
      dl.2 = (seen ++ [b]).filter (fun x => x.domain == dl.1) := by
  induction acc with
  | nil =>
    intro dl hdl
    simp only [addToGroups, List.mem_singleton] at hdl
    subst hdl
    have hempty : seen.filter (fun x => x.domain == b.domain) = [] := by
      rcases hnew with h | h
      · simp at h
      · exact h
    simp [List.filter_append, hempty]
  | cons hd0 rest ih =>
    obtain ⟨d, l⟩ := hd0
    have hnodup' := hnodup
    rw [List.map_cons] at hnodup'
    have hdns : d ∉ rest.map Prod.fst := (List.nodup_cons.mp hnodup').1
    have hrestnodup : (rest.map Prod.fst).Nodup := (List.nodup_cons.mp hnodup').2
    intro dl hdl
    by_cases hd : (d == b.domain)
    · have hdd : d = b.domain := by simpa using hd
      simp only [addToGroups, hd, if_true] at hdl
      rcases List.mem_cons.mp hdl with h | h
      · subst h
        have hl : l = seen.filter (fun x => x.domain == d) :=
          hchar (d, l) (List.mem_cons_self _ _)
        have hfb : [b].filter (fun x => x.domain == d) = [b] := by
          simp [hdd]
        show l ++ [b] = (seen ++ [b]).filter (fun x => x.domain == d)
        rw [List.filter_append, hfb, ← hl]
      · have hmem : dl ∈ (d, l) :: rest := List.mem_cons_of_mem _ h
        have hl : dl.2 = seen.filter (fun x => x.domain == dl.1) := hchar dl hmem
        have hne : dl.1 ≠ b.domain := by
          intro hcontra
          have hd1 : dl.1 ∈ rest.map Prod.fst := List.mem_map_of_mem Prod.fst h
          rw [hcontra, ← hdd] at hd1
          exact hdns hd1
        have hne2 : ¬b.domain = dl.1 := fun h' => hne h'.symm
        have hfb : [b].filter (fun x => x.domain == dl.1) = [] := by
          simp [hne2]
        rw [List.filter_append, hfb, List.append_nil, ← hl]
    · have hdd : ¬d = b.domain := by simpa using hd
      have heqf : (d == b.domain) = false := by simpa using hd
      simp only [addToGroups, heqf, Bool.false_eq_true, if_false] at hdl
      rcases List.mem_cons.mp hdl with h | h
      · subst h
        have hl : l = seen.filter (fun x => x.domain == d) :=
          hchar (d, l) (List.mem_cons_self _ _)
        have hdd2 : ¬b.domain = d := fun h' => hdd h'.symm
        have hfb : [b].filter (fun x => x.domain == d) = [] := by
          simp [hdd2]
        show l = (seen ++ [b]).filter (fun x => x.domain == d)
        rw [List.filter_append, hfb, List.append_nil, ← hl]
      · refine ih (fun dl' hdl' => hchar dl' (List.mem_cons_of_mem _ hdl'))
          hrestnodup ?_ dl h
        rcases hnew with hmem | hempty
        · rw [List.map_cons] at hmem
          rcases List.mem_cons.mp hmem with hcontra | hmem'
          · exact absurd hcontra.symm hdd
          · exact Or.inl hmem'
        · exact Or.inr hempty

theorem groupLoop_spec (bs : List Bookmark) :
    ∀ (acc : List (String × List Bookmark)) (seen : List Bookmark),
    (acc.map Prod.fst).Nodup →
    (∀ dl ∈ acc, dl.2 = seen.filter (fun x => x.domain == dl.1)) →
    (∀ x ∈ seen, x.domain ∈ acc.map Prod.fst) →
    ((bs.foldl addToGroups acc).map Prod.fst).Nodup ∧
    (∀ dl ∈ bs.foldl addToGroups acc,
      dl.2 = (seen ++ bs).filter (fun x => x.domain == dl.1)) ∧
    (∀ x ∈ seen ++ bs, x.domain ∈ (bs.foldl addToGroups acc).map Prod.fst) := by
  induction bs with
  | nil =>
    intro acc seen hnodup hchar hcomp
    simp only [List.foldl_nil, List.append_nil]
    exact ⟨hnodup, hchar, hcomp⟩
  | cons b rest ih =>
    intro acc seen hnodup hchar hcomp
    have hnew : b.domain ∈ acc.map Prod.fst ∨
        seen.filter (fun x => x.domain == b.domain) = [] := by
      by_cases hm : b.domain ∈ acc.map Prod.fst
      · exact Or.inl hm
      · refine Or.inr (List.filter_eq_nil_iff.mpr fun x hx hbx => ?_)
        have : x.domain = b.domain := by simpa using hbx
        exact hm (this ▸ hcomp x hx)
    have hnodup' : ((addToGroups acc b).map Prod.fst).Nodup := by
      rw [addToGroups_fst]
      by_cases hm : b.domain ∈ acc.map Prod.fst
      · simpa [hm] using hnodup
      · simp only [hm, if_false]
        simp [List.nodup_append, hnodup, hm]
    have hchar' : ∀ dl ∈ addToGroups acc b,
        dl.2 = (seen ++ [b]).filter (fun x => x.domain == dl.1) :=
      addToGroups_filter seen acc b hchar hnodup hnew
    have hcomp' : ∀ x ∈ seen ++ [b], x.domain ∈ (addToGroups acc b).map Prod.fst := by
      intro x hx
      have hsup : ∀ d, d ∈ acc.map Prod.fst → d ∈ (addToGroups acc b).map Prod.fst := by
        intro d hd
        rw [addToGroups_fst]
        by_cases hm : b.domain ∈ acc.map Prod.fst <;> simp [hm, hd]
      rcases List.mem_append.mp hx with h | h
      · exact hsup _ (hcomp x h)
      · have hxb : x = b := by simpa using h
        subst hxb
        rw [addToGroups_fst]
        by_cases hm : x.domain ∈ acc.map Prod.fst <;> simp [hm]
    have := ih (addToGroups acc b) (seen ++ [b]) hnodup' hchar' hcomp'
    simpa [List.append_assoc] using this

/-- Characterisation of the per-domain grouping: keys are distinct, each
key's list is the filter of the input by that domain, and every input
bookmark's domain occurs as a key. -/
theorem groupByDomains_spec (bs : List Bookmark) :
    ((groupByDomains bs).map Prod.fst).Nodup ∧
    (∀ dl ∈ groupByDomains bs, dl.2 = bs.filter (fun x => x.domain == dl.1)) ∧
    (∀ x ∈ bs, x.domain ∈ (groupByDomains bs).map Prod.fst) := by
  have := groupLoop_spec bs [] [] (by simp) (by simp) (by simp)
  simpa [groupByDomains] using this

theorem mem_mkDomainTasks {gs : List (String × List Bookmark)} {dfun : Nat → ℚ}
    {t : Bookmark × ℚ} (h : t ∈ mkDomainTasks gs dfun) :
    ∃ dl ∈ gs, t.1 ∈ dl.2 := by
  obtain ⟨dl, hdl, ht⟩ := List.mem_flatMap.mp h
  obtain ⟨ib, hib, hteq⟩ := List.mem_map.mp ht
  refine ⟨dl, hdl, ?_⟩
  have : ib.2 ∈ dl.2 := by
    have := List.mem_map_of_mem Prod.snd hib
    rwa [List.enum_map_snd] at this
  rw [← hteq]
  exact this

/-- Every fetch task's bookmark comes from the input and is accessible. -/
theorem mem_fetchTasks {bms : List Bookmark} {d : ℚ} {t : Bookmark × ℚ}
    (h : t ∈ fetchTasks bms d) : t.1 ∈ bms ∧ t.1.status.accessible = true := by
  obtain ⟨dl, hdl, ht⟩ := mem_mkDomainTasks h
  have hchar := (groupByDomains_spec (bms.filter (fun b => b.status.accessible))).2.1
  have := hchar dl hdl
  rw [this] at ht
  have := List.mem_filter.mp (List.mem_filter.mp ht).1
  exact ⟨this.1, this.2⟩

theorem mkDomainTasks_filter (bs : List Bookmark) (dfun : Nat → ℚ) (dom : String) :
    ∀ gs : List (String × List Bookmark),
    (∀ dl ∈ gs, dl.2 = bs.filter (fun x => x.domain == dl.1)) →
    ((gs.map Prod.fst).Nodup) →
    (dom ∈ gs.map Prod.fst ∨ bs.filter (fun x => x.domain == dom) = []) →
    (mkDomainTasks gs dfun).filter (fun t => t.1.domain == dom) =
      (bs.filter (fun x => x.domain == dom)).enum.map (fun ib => (ib.2, dfun ib.1)) := by
  intro gs
  induction gs with
  | nil =>
    intro _ _ hdom
    have hempty : bs.filter (fun x => x.domain == dom) = [] := by
      rcases hdom with h | h
      · simp at h
      · exact h
    simp [mkDomainTasks, hempty]
  | cons dl rest ih =>
    intro hchar hnodup hdom
    obtain ⟨d, l⟩ := dl
    have hl : l = bs.filter (fun x => x.domain == d) := hchar (d, l) (List.mem_cons_self _ _)
    have hrestchar : ∀ dl' ∈ rest, dl'.2 = bs.filter (fun x => x.domain == dl'.1) :=
      fun dl' hdl' => hchar dl' (List.mem_cons_of_mem _ hdl')
    have hnodup' := hnodup
    rw [List.map_cons] at hnodup'
    have hdrest : d ∉ rest.map Prod.fst := (List.nodup_cons.mp hnodup').1
    have hrestnodup : (rest.map Prod.fst).Nodup := (List.nodup_cons.mp hnodup').2
    have hflat : mkDomainTasks ((d, l) :: rest) dfun =
        l.enum.map (fun ib => (ib.2, dfun ib.1)) ++ mkDomainTasks rest dfun := by
      simp [mkDomainTasks]
    rw [hflat, List.filter_append]
    by_cases hd : d = dom
    · subst hd
      have hkeep : (l.enum.map (fun ib => (ib.2, dfun ib.1))).filter
          (fun t => t.1.domain == d) = l.enum.map (fun ib => (ib.2, dfun ib.1)) := by
        refine List.filter_eq_self.mpr fun t ht => ?_
        obtain ⟨ib, hib, hteq⟩ := List.mem_map.mp ht
        have hmem : ib.2 ∈ l := by
          have := List.mem_map_of_mem Prod.snd hib
          rwa [List.enum_map_snd] at this
        rw [hl] at hmem
        have := (List.mem_filter.mp hmem).2
        rw [← hteq]
        exact this
      have hdrop : (mkDomainTasks rest dfun).filter (fun t => t.1.domain == d) = [] := by
        refine List.filter_eq_nil_iff.mpr fun t ht hteq => ?_
        obtain ⟨dl', hdl', hmem⟩ := mem_mkDomainTasks ht
        have hchar' := hrestchar dl' hdl'
        rw [hchar'] at hmem
        have hdom1 : t.1.domain = dl'.1 := by simpa using (List.mem_filter.mp hmem).2
        have hteq' : t.1.domain = d := by simpa using hteq
        have hdd' : dl'.1 = d := by rw [← hdom1, hteq']
        exact hdrest (hdd' ▸ List.mem_map_of_mem Prod.fst hdl')
      rw [hkeep, hdrop, List.append_nil, hl]
    · have hdropl : (l.enum.map (fun ib => (ib.2, dfun ib.1))).filter
          (fun t => t.1.domain == dom) = [] := by
        refine List.filter_eq_nil_iff.mpr fun t ht hteq => ?_
        obtain ⟨ib, hib, hteq'⟩ := List.mem_map.mp ht
        have hmem : ib.2 ∈ l := by
          have := List.mem_map_of_mem Prod.snd hib
          rwa [List.enum_map_snd] at this
        rw [hl] at hmem
        have h1 : ib.2.domain = d := by simpa using (List.mem_filter.mp hmem).2
        have h2 : t.1.domain = dom := by simpa using hteq
        rw [← hteq'] at h2
        exact hd (h1 ▸ h2)
      rw [hdropl, List.nil_append]
      refine ih hrestchar hrestnodup ?_
      rcases hdom with hmem | hempty
      · rw [List.map_cons] at hmem
        rcases List.mem_cons.mp hmem with hcontra | hmem'
        · exact absurd hcontra.symm hd
        · exact Or.inl hmem'
      · exact Or.inr hempty

/-! ## Claim C9 -/

/-- Claim C9, counterexample: two bookmarks sharing domain `x.com`, the
first inaccessible, the second accessible.  The claim predicts a fetch-phase
start delay of `rank × d = 1 × 2 = 2` for the accessible one (its 0-based
rank among bookmarks sharing its domain is 1), but the fetch phase groups
only accessible bookmarks (`content-downloader.py:189-190`), so its task is
created with delay `0`. -/
theorem fetch_delay_rank_counterexample :
    fetchTasks [bmX, bmY] 2 = [(bmY, 0)] ∧
    ([bmX, bmY].filter (fun x => x.domain == "x.com")).enum.map
      (fun ib => (ib.2, (ib.1 : ℚ) * 2)) = [(bmX, 0), (bmY, 2)] ∧
    (bmY, (2 : ℚ)) ∉ fetchTasks [bmX, bmY] 2 := by
  refine ⟨?_, ?_, ?_⟩ <;>
    norm_num [fetchTasks, mkDomainTasks, groupByDomains, addToGroups,
      bmX, bmY, stAcc, stInacc, List.enum, List.enumFrom]

/-- Claim C9 (amended): in each phase, the tasks of any domain `dom` are
exactly that domain's bookmarks of the phase's task set, in input order,
the `i`-th getting start delay `i * d / 2` (probe) resp. `i * d` (fetch).
For the probe phase the task set is the whole batch, so the rank is the
0-based rank among all bookmarks sharing the domain, as the claim states;
for the fetch phase only accessible bookmarks get tasks, so the rank is
taken among the accessible bookmarks sharing the domain. -/
theorem domain_stagger_delays (bms : List Bookmark) (d : ℚ) (dom : String) :
    (probeTasks bms d).filter (fun t => t.1.domain == dom) =
      (bms.filter (fun x => x.domain == dom)).enum.map
        (fun ib => (ib.2, (ib.1 : ℚ) * d / 2)) ∧
    (fetchTasks bms d).filter (fun t => t.1.domain == dom) =
      ((bms.filter (fun x => x.status.accessible)).filter
          (fun x => x.domain == dom)).enum.map
        (fun ib => (ib.2, (ib.1 : ℚ) * d)) := by
  constructor
  · have hs := groupByDomains_spec bms
    refine mkDomainTasks_filter bms _ dom (groupByDomains bms) hs.2.1 hs.1 ?_
    by_cases hm : dom ∈ (groupByDomains bms).map Prod.fst
    · exact Or.inl hm
    · refine Or.inr (List.filter_eq_nil_iff.mpr fun x hx hdx => ?_)
      have hxd : x.domain = dom := by simpa using hdx
      exact hm (hxd ▸ hs.2.2 x hx)
  · have hs := groupByDomains_spec (bms.filter (fun b => b.status.accessible))
    refine mkDomainTasks_filter _ _ dom _ hs.2.1 hs.1 ?_
    by_cases hm : dom ∈
        (groupByDomains (bms.filter (fun b => b.status.accessible))).map Prod.fst
    · exact Or.inl hm
    · refine Or.inr (List.filter_eq_nil_iff.mpr fun x hx hdx => ?_)
      have hxd : x.domain = dom := by simpa using hdx
      exact hm (hxd ▸ hs.2.2 x hx)

/-! ## Claim C8 -/

/-- Claim C8: whatever order the concurrent tasks of a phase complete in,
the phase's output collection is sorted ascending by `id`: both phases end
by sorting the completed results (`url-checker.py:179`,
`content-downloader.py:229`). -/
theorem phase_output_sorted_by_id (completedP : List Bookmark)
    (completedF : List (Bookmark × Nat)) (bms : List Bookmark)
    (envf : Bookmark → FetchEnv) :
    List.Sorted (fun a b : Bookmark => a.id ≤ b.id) (check_urls_async completedP) ∧
    List.Sorted (fun a b : Bookmark × Nat => a.1.id ≤ b.1.id)
      (download_content_async completedF bms envf) := by
  constructor
  · haveI : IsTotal Bookmark (fun a b => a.id ≤ b.id) := ⟨fun a b => Nat.le_total a.id b.id⟩
    haveI : IsTrans Bookmark (fun a b => a.id ≤ b.id) :=
      ⟨fun _ _ _ hab hbc => Nat.le_trans hab hbc⟩
    exact List.sorted_insertionSort _ _
  · haveI : IsTotal (Bookmark × Nat) (fun a b => a.1.id ≤ b.1.id) :=
      ⟨fun a b => Nat.le_total a.1.id b.1.id⟩
    haveI : IsTrans (Bookmark × Nat) (fun a b => a.1.id ≤ b.1.id) :=
      ⟨fun _ _ _ hab hbc => Nat.le_trans hab hbc⟩
    exact List.sorted_insertionSort _ _

/-! ## Claim C3 -/

theorem download_page_content_fst (bm : Bookmark) (outdir : String) (env : FetchEnv) :
    (download_page_content bm outdir env).1.id = bm.id ∧
    (download_page_content bm outdir env).1.status = bm.status := by
  unfold download_page_content
  by_cases h : bm.status.accessible = false
  · simp [h]
  · simp only [h, if_false]
    cases hg : env.getResult with
    | error e => cases e <;> simp
    | ok resp => by_cases h200 : resp.status ≠ 200 <;> simp [h200]

theorem eq_of_mem_of_id_eq {bms : List Bookmark}
    (hnodup : (bms.map (fun x => x.id)).Nodup) {a b : Bookmark}
    (ha : a ∈ bms) (hb : b ∈ bms) (hid : a.id = b.id) : a = b :=
  List.inj_on_of_nodup_map hnodup ha hb hid

/-- Claim C3: a bookmark with `status.accessible = false` is never given a
fetch task (so the fetch phase makes zero network calls for it — the
network-call count attached to its output record is `0`), and its output
record carries exactly
`content = {downloaded: false, error: "inaccessible_url", download_date: now}`
(all other fields absent); only accessible bookmarks' records can carry a
positive call count. -/
theorem fetch_inaccessible_short_circuit
    (bms : List Bookmark) (envf : Bookmark → FetchEnv) (outdir : String) (d : ℚ)
    (completed : List (Bookmark × Nat)) (b : Bookmark)
    (hnodup : (bms.map (fun x => x.id)).Nodup)
    (hperm : completed.Perm (fetchResults bms envf outdir d))
    (hb : b ∈ bms) (hacc : b.status.accessible = false) :
    (({ b with content := some (mkInaccessibleContent (envf b).now_iso) }, 0) ∈
        download_content_async completed bms envf) ∧
    (∀ p ∈ download_content_async completed bms envf, p.1.id = b.id →
        p = ({ b with content := some (mkInaccessibleContent (envf b).now_iso) }, 0)) := by
  have hmemiff : ∀ p : Bookmark × Nat, p ∈ download_content_async completed bms envf ↔
      p ∈ completed ++ (bms.filter (fun x => !x.status.accessible)).map
        (fun x => ({ x with content := some (mkInaccessibleContent (envf x).now_iso) }, 0)) := by
    intro p
    unfold download_content_async sortPairsById
    exact (List.perm_insertionSort _ _).mem_iff
  constructor
  · rw [hmemiff]
    refine List.mem_append.mpr (Or.inr ?_)
    exact List.mem_map.mpr ⟨b, List.mem_filter.mpr ⟨hb, by simp [hacc]⟩, rfl⟩
  · intro p hp hid
    rw [hmemiff] at hp
    rcases List.mem_append.mp hp with hpc | hpn
    · have hpf : p ∈ fetchResults bms envf outdir d := hperm.mem_iff.mp hpc
      obtain ⟨t, ht, hpt⟩ := List.mem_map.mp hpf
      obtain ⟨htmem, htacc⟩ := mem_fetchTasks ht
      rw [← hpt] at hid
      rw [(download_page_content_fst t.1 outdir (envf t.1)).1] at hid
      have hteq : t.1 = b := eq_of_mem_of_id_eq hnodup htmem hb hid
      rw [hteq] at htacc
      rw [htacc] at hacc
      exact absurd hacc (by simp)
    · obtain ⟨x, hxf, hxp⟩ := List.mem_map.mp hpn
      have hxmem := (List.mem_filter.mp hxf).1
      rw [← hxp] at hid
      have hxid : x.id = b.id := hid
      have hxb : x = b := eq_of_mem_of_id_eq hnodup hxmem hb hxid
      rw [← hxp, hxb]

/-- Claim C3, witness: a one-element batch whose only bookmark is
inaccessible; the fetch phase produces its record with the exact
`inaccessible_url` content and a zero network-call count. -/
theorem fetch_inaccessible_short_circuit_witness :
    (({ bmX with content := some (mkInaccessibleContent fenvHtml.now_iso) }, 0) ∈
        download_content_async [] [bmX] (fun _ => fenvHtml)) ∧
    (∀ p ∈ download_content_async [] [bmX] (fun _ => fenvHtml), p.1.id = bmX.id →
        p = ({ bmX with content := some (mkInaccessibleContent fenvHtml.now_iso) }, 0)) :=
  have h := fetch_inaccessible_short_circuit [bmX] (fun _ => fenvHtml) "output" 1 [] bmX
    (by decide) (by decide) (by decide) (by decide)
  ⟨h.1, h.2⟩

/-! ## Claim C7 -/

/-- Claim C7, counterexample: the stem sanitisation at
`content-downloader.py:68-76` replaces only `/` by `_`; a URL path `/x.y`
is stored with stem `x.y`, which still contains the non-alphanumeric,
non-underscore character `.`, so "non-alphanumeric characters replaced" is
false on the code. -/
theorem filename_keeps_nonalphanumeric :
    (download_page_content bmDot "output" fenvHtml).1.content = some
      { downloaded := true,
        path := some "output/data/content/a.b/x.y_0123456789_20260101.html",
        size := some 3,
        mime_type := some "text/html",
        download_date := some "now",
        error := none,
        url_used := some "https://a.b/x.y" } ∧
    sanitizePath "/x.y" = "x.y" ∧
    '.' ∈ "x.y".data ∧ '.'.isAlphanum = false ∧ ('.' == '_') = false := by
  decide

/-- Claim C7 (amended): on a 200 response, the stored path is
`<output_dir>/data/content/<netloc with ':' replaced>/<stem>_<hash>_<date><ext>`
where the stem is the URL path stripped of leading/trailing `/`, defaulting
to `"index"` when empty, with `/` (not every non-alphanumeric character)
replaced by `_` and truncated to 100 characters; the hash is the first 10
hex digits of the md5 of the full fetched URL; the date is the `%Y%m%d`
stamp; and the extension is `.json` if the declared content type contains
`"json"`, `.xml` if it contains `"xml"`, `.txt` if it contains
`"text/plain"`, else `.html`. -/
theorem filename_construction (bm : Bookmark) (outdir : String) (env : FetchEnv)
    (resp : FetchResp) (hacc : bm.status.accessible = true)
    (hget : env.getResult = .ok resp) (h200 : resp.status = 200) :
    (download_page_content bm outdir env).1.content = some
      { downloaded := true,
        path := some (pathJoin (pathJoin (pathJoin outdir "data/content")
            (replaceChar ':' '_' (urlparse (fetchTargetUrl bm)).netloc))
          ((if pyIsEmpty (stripChar '/' (urlparse (fetchTargetUrl bm)).path) then "index"
            else pyTake 100 (replaceChar '/' '_'
              (stripChar '/' (urlparse (fetchTargetUrl bm)).path))) ++ "_" ++
           pyTake 10 (env.md5hex (fetchTargetUrl bm)) ++ "_" ++ env.today ++
           (if pyContains (resp.contentType.getD "text/html") "json" then ".json"
            else if pyContains (resp.contentType.getD "text/html") "xml" then ".xml"
            else if pyContains (resp.contentType.getD "text/html") "text/plain" then ".txt"
            else ".html"))),
        size := some resp.bodyLen,
        mime_type := some (resp.contentType.getD "text/html"),
        download_date := some env.now_iso,
        error := none,
        url_used := some (fetchTargetUrl bm) } := by
  unfold download_page_content
  rw [if_neg (by rw [hacc]; simp)]
  simp only [hget]
  rw [if_neg (by rw [h200]; simp)]
  simp only [sanitizePath, sanitizeDomain, extensionFor]

/-- Claim C7, witness: a `Content-Type: application/json; charset=utf-8`
response is stored with extension `.json`, and an unrecognised content type
falls back to `.html`, both obtained from `filename_construction`. -/
theorem filename_construction_witness :
    (download_page_content bmXY "output" fenvJson).1.content = some
      { downloaded := true,
        path := some "output/data/content/a.b/x_y_0123456789_20260101.json",
        size := some 5,
        mime_type := some "application/json; charset=utf-8",
        download_date := some "now",
        error := none,
        url_used := some "https://a.b/x/y" } ∧
    (download_page_content bmXY "output" fenvWeird).1.content = some
      { downloaded := true,
        path := some "output/data/content/a.b/x_y_0123456789_20260101.html",
        size := some 5,
        mime_type := some "application/weird",
        download_date := some "now",
        error := none,
        url_used := some "https://a.b/x/y" } :=
  ⟨(filename_construction bmXY "output" fenvJson ⟨200, some "application/json; charset=utf-8", 5⟩
      (by decide) rfl rfl).trans (by decide),
   (filename_construction bmXY "output" fenvWeird ⟨200, some "application/weird", 5⟩
      (by decide) rfl rfl).trans (by decide)⟩

end BookmarkAnalysis
